import Mathlib

/-!
Verification of the QuickUMLS FHIR installer (`quickumls/install_fhir.py`).

The development shallowly embeds the concept-extraction pipeline of the
installer: `process_concept`, the paginated `extract_from_fhir` retrieval
loop, and the dual-index builder `parse_and_encode_ngrams`, together with
the text-normalization applied to every surface form.  Strings are Lean
`String`s; Python sets are modelled as insertion-ordered duplicate-free
lists; the HTTP server is abstracted as a function from request offset to
the decoded `expansion` object of the response.
-/

namespace QuickUMLS

/-! ### String helpers embedding the Python primitives used by the installer -/

/-- Embeds Python `str.strip()`: removes leading and trailing whitespace. -/
def pyStrip (s : String) : String :=
  ⟨((s.data.dropWhile Char.isWhitespace).reverse.dropWhile Char.isWhitespace).reverse⟩

/-- Embeds Python `s.endswith(suffix)`. -/
def endswith (s suffix : String) : Bool :=
  suffix.data.isSuffixOf s.data

/-- Embeds the Python slice `s[:-k]` (for `k > 0`): all characters except the
last `k`. -/
def pyDropRight (s : String) (k : Nat) : String :=
  ⟨s.data.take (s.data.length - k)⟩

/-- Embeds Python `str.lower()` on the ASCII range (the surface forms exercised
by the claims are ASCII; uppercase ASCII letters are mapped to lowercase,
every other character is kept). -/
def lowerChar (c : Char) : Char :=
  if 65 ≤ c.toNat ∧ c.toNat ≤ 90 then Char.ofNat (c.toNat + 32) else c

/-- Embeds Python `str.lower()`, character by character. -/
def pyLower (s : String) : String :=
  ⟨s.data.map lowerChar⟩

/-- Modelled from the spec: the transliteration table of the external
`unidecode` collaborator (a third-party library, not part of this
repository).  Section 4.3 of the spec describes it as replacing text by its
closest ASCII-only transliteration, characters without a reasonable mapping
being dropped; this table instantiates that contract for a sample of
accented Latin letters (each entry is the genuine `unidecode` output). -/
def unidecode_table : List (Char × List Char) :=
  [ ('á', ['a']), ('à', ['a']), ('â', ['a']), ('ä', ['a']), ('ã', ['a']), ('å', ['a'])
  , ('é', ['e']), ('è', ['e']), ('ê', ['e']), ('ë', ['e'])
  , ('í', ['i']), ('ì', ['i']), ('î', ['i']), ('ï', ['i'])
  , ('ó', ['o']), ('ò', ['o']), ('ô', ['o']), ('ö', ['o']), ('õ', ['o'])
  , ('ú', ['u']), ('ù', ['u']), ('û', ['u']), ('ü', ['u'])
  , ('ñ', ['n']), ('ç', ['c']), ('ß', ['s', 's']) ]

/-- Modelled from the spec: `unidecode` on one character.  ASCII characters
are transliterated to themselves; non-ASCII characters are looked up in the
table, unmapped ones are dropped. -/
def unidecodeChar (c : Char) : List Char :=
  if c.toNat < 128 then [c]
  else
    match unidecode_table.find? (fun p => p.1 = c) with
    | some p => p.2
    | none => []

/-- Modelled from the spec: `unidecode` on a string. -/
def unidecode (s : String) : String :=
  ⟨(s.data.map unidecodeChar).flatten⟩

/-- The Text Normalizer (lines 144-149 of `install_fhir.py`): lowercase
first when the `lowercase` flag is set, then transliterate when the
`normalize_unicode` flag is set. -/
def normalize (s : String) (lowercase normalize_unicode : Bool) : String :=
  let s := if lowercase then pyLower s else s
  if normalize_unicode then unidecode s else s

/-! ### Data model -/

/-- A designation of a concept (the flattened `designation['use']['system']`,
`designation['use']['code']`, `designation['value']` fields of the JSON). -/
structure Designation where
  use_system : String
  use_code : String
  value : String
deriving DecidableEq

/-- A concept of the ValueSet expansion (`code`, `system`, `display`,
optional `designation` array). -/
structure Concept where
  code : String
  system : String
  display : String
  designation : Option (List Designation)
deriving DecidableEq

/-- The extraction options used by `process_concept` (`opts.lowercase`,
`opts.normalize_unicode`, `opts.semantic`). -/
structure Opts where
  lowercase : Bool
  normalize_unicode : Bool
  semantic : String
deriving DecidableEq

/-- One record yielded by `process_concept`:
`(synonym, code, [semantic_type], synonym == preferred_name)`. -/
structure ExtractedRecord where
  term : String
  code : String
  semantic_types : List String
  is_preferred : Bool
deriving DecidableEq

/-- The fixed semantic type vocabulary `SNOMED_SEMANTIC_TYPES`
(lines 25-86 of `install_fhir.py`), in source order. -/
def SNOMED_SEMANTIC_TYPES : List String :=
  [ "OWL metadata concept"
  , "administration method"
  , "assessment scale"
  , "attribute"
  , "basic dose form"
  , "body structure"
  , "cell structure"
  , "cell"
  , "clinical drug"
  , "core metadata concept"
  , "disorder"
  , "disposition"
  , "dose form"
  , "environment / location"
  , "environment"
  , "ethnic group"
  , "event"
  , "finding"
  , "foundation metadata concept"
  , "geographic location"
  , "inactive concept"
  , "intended site"
  , "life style"
  , "link assertion"
  , "linkage concept"
  , "medicinal product form"
  , "medicinal product"
  , "metadata"
  , "morphologic abnormality"
  , "namespace concept"
  , "navigational concept"
  , "number"
  , "observable entity"
  , "occupation"
  , "organism"
  , "person"
  , "physical force"
  , "physical object"
  , "procedure"
  , "product name"
  , "product"
  , "qualifier value"
  , "racial group"
  , "record artifact"
  , "regime/therapy"
  , "release characteristic"
  , "religion/philosophy"
  , "role"
  , "situation"
  , "social concept"
  , "special concept"
  , "specimen"
  , "staging scale"
  , "staging scales"
  , "state of matter"
  , "substance"
  , "supplier"
  , "transformation"
  , "tumor staging"
  , "unit of presentation" ]

/-- The SNOMED metadata / code system URI compared against `use_system` and
`system` in `process_concept`. -/
def snomed_sct : String := "http://snomed.info/sct"

/-- SNOMED role code for a synonym designation. -/
def synonym_use_code : String := "900000000000013009"

/-- SNOMED role code for a fully specified name designation. -/
def fsn_use_code : String := "900000000000003001"

/-- The semantic-type scan of lines 137-141: first vocabulary entry `type`
such that the designation value ends with `"(" + type + ")"`. -/
def findType (value : String) : Option String :=
  SNOMED_SEMANTIC_TYPES.find? (fun type => endswith value ("(" ++ type ++ ")"))

/-- `synonyms.add s` on the insertion-ordered duplicate-free list that models
the Python set of synonyms. -/
def insertSyn (l : List String) (s : String) : List String :=
  if s ∈ l then l else l ++ [s]

/-- One iteration of the designation loop of `process_concept`
(lines 128-143): the state is the pair (synonym set, semantic type). -/
def processDesignation (system : String) (st : List String × String)
    (d : Designation) : List String × String :=
  if d.use_system = snomed_sct then
    if d.use_code = synonym_use_code then
      (insertSyn st.1 (pyStrip d.value), st.2)
    else if d.use_code = fsn_use_code then
      if system = snomed_sct then
        match findType d.value with
        | some type =>
            (insertSyn st.1 (pyStrip (pyDropRight d.value (type.length + 2))), type)
        | none => st
      else
        (insertSyn st.1 (pyStrip d.value), st.2)
    else st
  else st

/-- The synonym set and semantic type accumulated by `process_concept`
before the yield loop (lines 124-143): the set is seeded with the trimmed
display, the type with `opts.semantic`, then every designation is folded. -/
def concept_state (concept : Concept) (opts : Opts) : List String × String :=
  let preferred_name := pyStrip concept.display
  let init := ([preferred_name], opts.semantic)
  match concept.designation with
  | none => init
  | some ds => ds.foldl (processDesignation concept.system) init

/-- The yield of lines 144-150 for one synonym: normalize, then emit
`(synonym, code, [semantic_type], synonym == preferred_name)` — the equality
test uses the rebound, already-normalized `synonym` variable. -/
def emitRecord (opts : Opts) (code preferred_name semantic_type synonym : String) :
    ExtractedRecord :=
  let synonym := normalize synonym opts.lowercase opts.normalize_unicode
  { term := synonym
  , code := code
  , semantic_types := [semantic_type]
  , is_preferred := synonym == preferred_name }

/-- Embeds `process_concept` (lines 121-150) as the list of yielded
records. -/
def process_concept (concept : Concept) (opts : Opts) : List ExtractedRecord :=
  let preferred_name := pyStrip concept.display
  let st := concept_state concept opts
  st.1.map (emitRecord opts concept.code preferred_name st.2)

/-- Observer of the designation loop: the semantic types recovered by
successive iterations of the fully-specified-name branch (lines 133-141),
in designation order. -/
def recoveredTypes (system : String) (ds : List Designation) : List String :=
  ds.filterMap (fun d =>
    if d.use_system = snomed_sct ∧ d.use_code = fsn_use_code ∧ system = snomed_sct then
      findType d.value
    else none)

/-! ### Concept Paginator (`extract_from_fhir`, lines 153-198) -/

/-- The `expansion` object of a decoded server response: `expansion.total`
and `expansion.contains`. -/
structure Expansion where
  total : Nat
  contains : List Concept
deriving DecidableEq

/-- The fixed page size `count = 100` of line 166. -/
def fhir_count : Nat := 100

/-- The `while offset < number_found` loop of lines 184-194, starting at a
given offset: returns the offsets of the requests issued by the loop and
the concepts contained in the responses, in order.  `number_found` is the
`expansion.total` of the first response and is never re-read.  The loop
terminates because the offset grows by `fhir_count` each round; the fuel
argument makes that explicit and any fuel at least `number_found` is
enough. -/
def fhirPages (server : Nat → Expansion) (number_found : Nat) :
    Nat → Nat → List Nat × List Concept
  | 0, _ => ([], [])
  | fuel + 1, offset =>
    if offset < number_found then
      let r := server offset
      let rest := fhirPages server number_found fuel (offset + fhir_count)
      (offset :: rest.1, r.contains ++ rest.2)
    else ([], [])

/-- Embeds `extract_from_fhir` (lines 153-198).  The HTTP transport is
abstracted as a function from request offset to the decoded `expansion`
object of the response; the other request parameters are fixed per run.
Returns the offsets of all issued page requests, the raw concepts yielded
page by page, and the records produced by running `process_concept` on each
raw concept in order. -/
def extract_from_fhir (server : Nat → Expansion) (opts : Opts) :
    List Nat × List Concept × List ExtractedRecord :=
  let r0 := server 0
  let number_found := r0.total
  let rest := fhirPages server number_found number_found fhir_count
  let raw := r0.contains ++ rest.2
  (0 :: rest.1, raw, raw.flatMap (fun c => process_concept c opts))

/-! ### Dual Index Builder (`parse_and_encode_ngrams`, lines 203-219) -/

/-- The observable state of the two stores: the deduplication set
`simstring_terms`, the sequence of `ss_db.insert` calls and the sequence of
`cuisty_db.insert` calls. -/
structure BuilderState where
  simstring_terms : List String
  ss_inserts : List String
  kv_inserts : List ExtractedRecord
deriving DecidableEq

/-- One iteration of the builder loop (lines 213-219): insert the term into
the similarity index only when it was not inserted before, always insert
the record into the key-value store. -/
def builderStep (st : BuilderState) (r : ExtractedRecord) : BuilderState :=
  let st :=
    if r.term ∈ st.simstring_terms then st
    else
      { st with
        ss_inserts := st.ss_inserts ++ [r.term]
        simstring_terms := st.simstring_terms ++ [r.term] }
  { st with kv_inserts := st.kv_inserts ++ [r] }

/-- Embeds `parse_and_encode_ngrams` (lines 203-219) as a fold over the
record stream starting from empty stores. -/
def parse_and_encode_ngrams (records : List ExtractedRecord) : BuilderState :=
  records.foldl builderStep ⟨[], [], []⟩

/-! ### Main flow (`main`, lines 274-332) -/

/-- Outcome of a run of `main` past the interactive directory setup.

`configError` is the `exit(1)` of lines 301-309 (the `unidecode`
collaborator is required but unavailable). -/
inductive MainResult where
  | configError
  | completed (built : BuilderState)
deriving DecidableEq

/-- Embeds the order of operations of `main` (lines 274-332) after the
directory preparation: when `normalize_unicode` is requested and the
`unidecode` import is unavailable the run stops with a configuration error
before the extraction pipeline consumes anything; otherwise the pipeline
runs to completion and builds the two stores. -/
def main_run (opts : Opts) (unidecode_available : Bool) (server : Nat → Expansion) :
    MainResult :=
  if opts.normalize_unicode && !unidecode_available then
    .configError
  else
    .completed (parse_and_encode_ngrams (extract_from_fhir server opts).2.2)

/-! ### Concrete inputs used by counterexamples and witnesses -/

/-- Options with both normalization flags off and the default semantic
type. -/
def offOpts : Opts := ⟨false, false, "UNKNOWN"⟩

/-- Options with the `lowercase` flag on. -/
def lcOpts : Opts := ⟨true, false, "UNKNOWN"⟩

/-- A concept with no designations whose display is not all-lowercase. -/
def fluConcept : Concept := ⟨"B2", "other", "Flu", none⟩

/-- A SNOMED concept whose only designation is a fully specified name whose
value matches no vocabulary entry as a type suffix. -/
def c2Concept : Concept :=
  ⟨"C2", snomed_sct, "X",
    some [⟨snomed_sct, fsn_use_code, "Something (notatype)"⟩]⟩

/-- A concept with a designation from a non-SNOMED `use_system`. -/
def c3Concept : Concept :=
  ⟨"C3", "http://example.org/sys", "Flu",
    some [⟨"http://other.example/d", synonym_use_code, "Other name"⟩]⟩

/-- A SNOMED concept with two fully specified names matching two different
semantic types. -/
def c4Concept : Concept :=
  ⟨"C4", snomed_sct, "Dis",
    some [⟨snomed_sct, fsn_use_code, "Alpha (disorder)"⟩,
          ⟨snomed_sct, fsn_use_code, "Beta (finding)"⟩]⟩

/-- The concept `A1` of the end-to-end scenario of spec section 8. -/
def a1Concept : Concept :=
  ⟨"A1", snomed_sct, "Heart attack",
    some [⟨snomed_sct, synonym_use_code, "Cardiac arrest "⟩,
          ⟨snomed_sct, fsn_use_code, "Myocardial infarction (disorder)"⟩]⟩

/-- A dummy raw concept used to populate concrete server pages. -/
def dummyConcept : Concept := ⟨"", "", "", none⟩

/-- A concrete server reporting `expansion.total = 250` whose page at
offset `k` holds `min 100 (250 - k)` concepts. -/
def c5server : Nat → Expansion :=
  fun k => ⟨250, List.replicate (min 100 (250 - k)) dummyConcept⟩

/-! ### Dual Index Builder lemmas -/

/-- Invariant of the builder fold: the deduplication set mirrors the
similarity-index insertions, those stay duplicate-free, the key-value store
receives every record, and a term was inserted into the similarity index
iff it occurs among the processed records (or was inserted before). -/
lemma builder_foldl_invariant (records : List ExtractedRecord) :
    ∀ st : BuilderState,
      st.simstring_terms = st.ss_inserts → st.ss_inserts.Nodup →
      (records.foldl builderStep st).simstring_terms
          = (records.foldl builderStep st).ss_inserts ∧
        (records.foldl builderStep st).ss_inserts.Nodup ∧
        (records.foldl builderStep st).kv_inserts = st.kv_inserts ++ records ∧
        (∀ t, t ∈ (records.foldl builderStep st).ss_inserts ↔
          (t ∈ st.ss_inserts ∨ t ∈ records.map (fun r => r.term))) := by
  induction records with
  | nil =>
    intro st h1 h2
    exact ⟨h1, h2, by simp, fun t => by simp⟩
  | cons r rs ih =>
    intro st h1 h2
    simp only [List.foldl_cons]
    by_cases hmem : r.term ∈ st.simstring_terms
    · have hstep : builderStep st r = { st with kv_inserts := st.kv_inserts ++ [r] } := by
        simp [builderStep, hmem]
      rw [hstep]
      obtain ⟨i1, i2, i3, i4⟩ := ih { st with kv_inserts := st.kv_inserts ++ [r] } h1 h2
      refine ⟨i1, i2, by simpa using i3, fun t => ?_⟩
      rw [i4 t]
      have hss : r.term ∈ st.ss_inserts := h1 ▸ hmem
      simp only [List.map_cons, List.mem_cons]
      constructor
      · rintro (h | h)
        · exact Or.inl h
        · exact Or.inr (Or.inr h)
      · rintro (h | rfl | h)
        · exact Or.inl h
        · exact Or.inl hss
        · exact Or.inr h
    · have hstep : builderStep st r =
          { simstring_terms := st.simstring_terms ++ [r.term]
          , ss_inserts := st.ss_inserts ++ [r.term]
          , kv_inserts := st.kv_inserts ++ [r] } := by
        simp [builderStep, hmem]
      rw [hstep]
      have hnods : (st.ss_inserts ++ [r.term]).Nodup := by
        have hnm : r.term ∉ st.ss_inserts := h1 ▸ hmem
        simp [List.nodup_append, h2, hnm]
      obtain ⟨i1, i2, i3, i4⟩ :=
        ih { simstring_terms := st.simstring_terms ++ [r.term]
           , ss_inserts := st.ss_inserts ++ [r.term]
           , kv_inserts := st.kv_inserts ++ [r] } (by simp [h1]) hnods
      refine ⟨i1, i2, by simpa using i3, fun t => ?_⟩
      rw [i4 t]
      simp only [List.mem_append, List.mem_singleton, List.map_cons, List.mem_cons]
      tauto

/-- Claim C6: after consuming any finite record stream, a term was inserted
into the similarity index iff it is a term of some record inserted into the
key-value store; similarity-index insertions are duplicate-free (each
distinct term once per run); and every record, repeated terms included,
yields a key-value insertion. -/
theorem builder_index_consistency (records : List ExtractedRecord) :
    (∀ t, t ∈ (parse_and_encode_ngrams records).ss_inserts ↔
        t ∈ (parse_and_encode_ngrams records).kv_inserts.map (fun r => r.term)) ∧
      (parse_and_encode_ngrams records).ss_inserts.Nodup ∧
      (parse_and_encode_ngrams records).kv_inserts = records := by
  obtain ⟨i1, i2, i3, i4⟩ :=
    builder_foldl_invariant records ⟨[], [], []⟩ rfl List.nodup_nil
  have hkv : (parse_and_encode_ngrams records).kv_inserts = records := by
    simpa [parse_and_encode_ngrams] using i3
  refine ⟨fun t => ?_, i2, hkv⟩
  rw [hkv]
  simpa [parse_and_encode_ngrams] using i4 t

/-! ### Main-flow theorem -/

/-- Claim C9: when unicode normalization is requested and the `unidecode`
collaborator is unavailable, the run ends in a configuration error before
the pipeline consumes anything: no built stores are produced. -/
theorem main_config_error (opts : Opts) (ua : Bool) (server : Nat → Expansion)
    (h1 : opts.normalize_unicode = true) (h2 : ua = false) :
    main_run opts ua server = .configError ∧
      ∀ bs, main_run opts ua server ≠ .completed bs := by
  subst h2
  simp [main_run, h1]

/-- Witness for `main_config_error` at a concrete configuration. -/
theorem main_config_error_witness :
    main_run ⟨false, true, "UNKNOWN"⟩ false (fun _ => ⟨0, []⟩) = .configError :=
  (main_config_error ⟨false, true, "UNKNOWN"⟩ false (fun _ => ⟨0, []⟩) rfl rfl).1

/-! ### Records of a concept with no designations (claim C7) -/

/-- Counterexample to claim C7 as stated: with `lowercase` on, the single
record emitted for a designation-free concept with display `"Flu"` has term
`"flu"`, not the trimmed display, and `is_preferred` is `false`, not
`true`. -/
theorem no_designation_counterexample :
    fluConcept.designation = none ∧
      pyStrip fluConcept.display = "Flu" ∧
      process_concept fluConcept lcOpts =
        [{ term := "flu", code := "B2", semantic_types := ["UNKNOWN"]
         , is_preferred := false }] ∧
      process_concept fluConcept lcOpts ≠
        [{ term := "Flu", code := "B2", semantic_types := ["UNKNOWN"]
         , is_preferred := true }] := by
  decide

/-- Claim C7, amended: for every concept with no designations, exactly one
record is emitted; its term is the normalization of the trimmed display and
`is_preferred` holds iff that normalization equals the trimmed display
(in particular, with both flags off the term is the trimmed display and
`is_preferred` is true). -/
theorem no_designation_single_record (concept : Concept) (opts : Opts)
    (h : concept.designation = none) :
    process_concept concept opts =
      [{ term := normalize (pyStrip concept.display) opts.lowercase opts.normalize_unicode
       , code := concept.code
       , semantic_types := [opts.semantic]
       , is_preferred :=
           normalize (pyStrip concept.display) opts.lowercase opts.normalize_unicode
             == pyStrip concept.display }] := by
  simp [process_concept, concept_state, h, emitRecord]

/-- Witness for `no_designation_single_record`: with both flags off the
designation-free concept yields exactly its trimmed display, preferred. -/
theorem no_designation_single_record_witness :
    process_concept fluConcept offOpts =
      [{ term := "Flu", code := "B2", semantic_types := ["UNKNOWN"]
       , is_preferred := true }] := by
  rw [no_designation_single_record fluConcept offOpts rfl]
  decide

/-! ### The `is_preferred` flag (claim C1) -/

/-- Counterexample to claim C1 as stated: for the designation-free concept
with display `"Flu"` under `lowercase`, the synonym `"Flu"` — whose
pre-normalization surface form equals the trimmed display — produces a
record with `is_preferred = false`, because the code compares the
already-normalized term `"flu"` against the raw trimmed display. -/
theorem is_preferred_counterexample :
    "Flu" ∈ (concept_state fluConcept lcOpts).1 ∧
      "Flu" = pyStrip fluConcept.display ∧
      (emitRecord lcOpts fluConcept.code (pyStrip fluConcept.display)
          (concept_state fluConcept lcOpts).2 "Flu").is_preferred = false ∧
      (emitRecord lcOpts fluConcept.code (pyStrip fluConcept.display)
          (concept_state fluConcept lcOpts).2 "Flu").term = "flu" := by
  decide

/-- Claim C1, amended: for every emitted record, `is_preferred` is true iff
the emitted (normalized) term equals the concept's trimmed display — the
comparison happens after normalization on the term side, against the
un-normalized trimmed display. -/
theorem is_preferred_iff_normalized_term (concept : Concept) (opts : Opts)
    (r : ExtractedRecord) (h : r ∈ process_concept concept opts) :
    r.is_preferred = true ↔ r.term = pyStrip concept.display := by
  simp only [process_concept, List.mem_map] at h
  obtain ⟨s, hs, rfl⟩ := h
  simp [emitRecord]

/-- Witness for `is_preferred_iff_normalized_term` on the preferred record
of a concrete concept. -/
theorem is_preferred_iff_normalized_term_witness :
    ({ term := "Flu", code := "B2", semantic_types := ["UNKNOWN"]
     , is_preferred := true } : ExtractedRecord) ∈ process_concept fluConcept offOpts ∧
      (({ term := "Flu", code := "B2", semantic_types := ["UNKNOWN"]
        , is_preferred := true } : ExtractedRecord).is_preferred = true ↔
        ({ term := "Flu", code := "B2", semantic_types := ["UNKNOWN"]
         , is_preferred := true } : ExtractedRecord).term = pyStrip fluConcept.display) :=
  ⟨by decide, is_preferred_iff_normalized_term fluConcept offOpts _ (by decide)⟩

/-! ### Designations the extractor ignores (claims C2 and C3) -/

/-- Folding a function that fixes every state over a list of elements it
ignores leaves the state unchanged. -/
lemma foldl_fixed_of_forall {α β : Type} (l : List β) (f : α → β → α) :
    ∀ st : α, (∀ st' d, d ∈ l → f st' d = st') → l.foldl f st = st := by
  induction l with
  | nil => intro st _; rfl
  | cons d ds ih =>
    intro st h
    rw [List.foldl_cons, h st d (List.mem_cons_self d ds)]
    exact ih st fun st' d' hd' => h st' d' (List.mem_cons_of_mem d hd')

/-- A designation whose `use_system` is not the SNOMED metadata URI is
ignored: the `if` of line 129 has no else branch. -/
lemma processDesignation_non_snomed_use (system : String) (st : List String × String)
    (d : Designation) (h : d.use_system ≠ snomed_sct) :
    processDesignation system st d = st := by
  simp [processDesignation, h]

/-- A SNOMED fully specified name of a SNOMED-system concept whose value
matches no vocabulary entry is ignored: the scan of lines 137-141 has no
else branch, so nothing is added and the semantic type is untouched. -/
lemma processDesignation_fsn_no_match (system : String) (st : List String × String)
    (d : Designation) (h1 : d.use_system = snomed_sct) (h2 : d.use_code = fsn_use_code)
    (h3 : system = snomed_sct) (h4 : findType d.value = none) :
    processDesignation system st d = st := by
  have hne : fsn_use_code ≠ synonym_use_code := by decide
  simp [processDesignation, h1, h2, h3, h4, hne]

/-- Counterexample to claim C2 as stated: the fully specified name
`"Something (notatype)"` of a SNOMED concept matches no vocabulary entry,
and its raw value is NOT added to the synonym set — no record with it as
term is emitted (the designation is ignored entirely). -/
theorem fsn_unmatched_counterexample :
    (∀ T ∈ SNOMED_SEMANTIC_TYPES,
        endswith "Something (notatype)" (" (" ++ T ++ ")") = false) ∧
      c2Concept.system = snomed_sct ∧
      c2Concept.designation = some [⟨snomed_sct, fsn_use_code, "Something (notatype)"⟩] ∧
      "Something (notatype)" ∉ (process_concept c2Concept offOpts).map (fun r => r.term) := by
  decide

/-- Claim C2, amended: for a SNOMED-system concept, a fully-specified-name
designation whose value matches no vocabulary entry contributes nothing:
when all designations are such, the semantic type stays the configured
default and only the trimmed display is emitted — the raw value is not
added as a synonym. -/
theorem fsn_unmatched_ignored (concept : Concept) (opts : Opts) (ds : List Designation)
    (hds : concept.designation = some ds)
    (hall : ∀ d ∈ ds, d.use_system = snomed_sct ∧ d.use_code = fsn_use_code ∧
        findType d.value = none)
    (hsys : concept.system = snomed_sct) :
    process_concept concept opts =
      [{ term := normalize (pyStrip concept.display) opts.lowercase opts.normalize_unicode
       , code := concept.code
       , semantic_types := [opts.semantic]
       , is_preferred :=
           normalize (pyStrip concept.display) opts.lowercase opts.normalize_unicode
             == pyStrip concept.display }] := by
  have hfold : ds.foldl (processDesignation concept.system)
      ([pyStrip concept.display], opts.semantic) = ([pyStrip concept.display], opts.semantic) := by
    refine foldl_fixed_of_forall ds (processDesignation concept.system) _ ?_
    intro st' d hd
    obtain ⟨h1, h2, h4⟩ := hall d hd
    exact processDesignation_fsn_no_match concept.system st' d h1 h2 hsys h4
  simp [process_concept, concept_state, hds, hfold, emitRecord]

/-- Witness for `fsn_unmatched_ignored` at the concrete concept. -/
theorem fsn_unmatched_ignored_witness :
    process_concept c2Concept offOpts =
      [{ term := "X", code := "C2", semantic_types := ["UNKNOWN"]
       , is_preferred := true }] := by
  rw [fsn_unmatched_ignored c2Concept offOpts
    [⟨snomed_sct, fsn_use_code, "Something (notatype)"⟩] rfl (by decide) rfl]
  decide

/-- Counterexample to claim C3 as stated: a designation from a non-SNOMED
`use_system` does not contribute its trimmed value to the synonym set — no
record with `"Other name"` as its term is emitted. -/
theorem non_snomed_use_counterexample :
    c3Concept.designation =
        some [⟨"http://other.example/d", synonym_use_code, "Other name"⟩] ∧
      ("http://other.example/d" : String) ≠ snomed_sct ∧
      pyStrip "Other name" = "Other name" ∧
      "Other name" ∉ (process_concept c3Concept offOpts).map (fun r => r.term) := by
  decide

/-- Claim C3, amended: designations whose `use_system` is not the SNOMED
metadata URI are ignored entirely, regardless of `use_code`: when all of a
concept's designations are such, only the trimmed display is emitted. -/
theorem non_snomed_use_ignored (concept : Concept) (opts : Opts) (ds : List Designation)
    (hds : concept.designation = some ds)
    (hall : ∀ d ∈ ds, d.use_system ≠ snomed_sct) :
    process_concept concept opts =
      [{ term := normalize (pyStrip concept.display) opts.lowercase opts.normalize_unicode
       , code := concept.code
       , semantic_types := [opts.semantic]
       , is_preferred :=
           normalize (pyStrip concept.display) opts.lowercase opts.normalize_unicode
             == pyStrip concept.display }] := by
  have hfold : ds.foldl (processDesignation concept.system)
      ([pyStrip concept.display], opts.semantic) = ([pyStrip concept.display], opts.semantic) := by
    refine foldl_fixed_of_forall ds (processDesignation concept.system) _ ?_
    intro st' d hd
    exact processDesignation_non_snomed_use concept.system st' d (hall d hd)
  simp [process_concept, concept_state, hds, hfold, emitRecord]

/-- Witness for `non_snomed_use_ignored` at the concrete concept. -/
theorem non_snomed_use_ignored_witness :
    process_concept c3Concept offOpts =
      [{ term := "Flu", code := "C3", semantic_types := ["UNKNOWN"]
       , is_preferred := true }] := by
  rw [non_snomed_use_ignored c3Concept offOpts
    [⟨"http://other.example/d", synonym_use_code, "Other name"⟩] rfl (by decide)]
  decide

/-! ### Semantic-type recovery (claims C10 and C4) -/

/-- Characterization of the semantic-type component of one designation
step: it becomes the recovered type when the designation is a SNOMED fully
specified name of a SNOMED-system concept whose value matches the
vocabulary, and is unchanged otherwise. -/
lemma processDesignation_snd (system : String) (st : List String × String)
    (d : Designation) :
    (processDesignation system st d).2 =
      (if d.use_system = snomed_sct ∧ d.use_code = fsn_use_code ∧ system = snomed_sct then
          findType d.value
        else none).getD st.2 := by
  have hsf : synonym_use_code ≠ fsn_use_code := by decide
  have hfs : fsn_use_code ≠ synonym_use_code := by decide
  by_cases h1 : d.use_system = snomed_sct
  · by_cases h2 : d.use_code = synonym_use_code
    · have hne : d.use_code ≠ fsn_use_code := by rw [h2]; exact hsf
      simp [processDesignation, h1, h2, hne, hsf]
    · by_cases h3 : d.use_code = fsn_use_code
      · by_cases h4 : system = snomed_sct
        · cases hf : findType d.value with
          | none => simp [processDesignation, h1, h2, h3, h4, hf, hfs]
          | some t => simp [processDesignation, h1, h2, h3, h4, hf, hfs]
        · simp [processDesignation, h1, h2, h3, h4]
      · simp [processDesignation, h1, h2, h3]
  · simp [processDesignation, h1]

/-- Unfolding of `recoveredTypes` over a cons. -/
lemma recoveredTypes_cons (system : String) (d : Designation) (ds : List Designation) :
    recoveredTypes system (d :: ds) =
      match (if d.use_system = snomed_sct ∧ d.use_code = fsn_use_code ∧ system = snomed_sct
             then findType d.value else none) with
      | none => recoveredTypes system ds
      | some t => t :: recoveredTypes system ds := by
  cases hf : (if d.use_system = snomed_sct ∧ d.use_code = fsn_use_code ∧ system = snomed_sct
      then findType d.value else none) with
  | none => simp [recoveredTypes, List.filterMap_cons, hf]
  | some t => simp [recoveredTypes, List.filterMap_cons, hf]

/-- The semantic type after folding the whole designation list is the last
recovered type, the initial type when no designation recovers one: each
match overwrites the previous one. -/
lemma foldl_processDesignation_snd (system : String) (ds : List Designation) :
    ∀ st : List String × String,
      (ds.foldl (processDesignation system) st).2 =
        (recoveredTypes system ds).getLastD st.2 := by
  induction ds with
  | nil => intro st; simp [recoveredTypes]
  | cons d ds ih =>
    intro st
    rw [List.foldl_cons, ih (processDesignation system st d),
      processDesignation_snd system st d, recoveredTypes_cons]
    cases hf : (if d.use_system = snomed_sct ∧ d.use_code = fsn_use_code ∧
        system = snomed_sct then findType d.value else none) with
    | none => rfl
    | some t => rw [List.getLastD_cons]; rfl

/-- Every record of a concept carries exactly the final semantic type of
the designation fold, as a one-element list. -/
lemma process_concept_semantic_types (concept : Concept) (opts : Opts)
    (r : ExtractedRecord) (h : r ∈ process_concept concept opts) :
    r.semantic_types = [(concept_state concept opts).2] := by
  simp only [process_concept, List.mem_map] at h
  obtain ⟨s, _, rfl⟩ := h
  rfl

/-- The final semantic type of a concept with designations is the last
recovered type, with `opts.semantic` as default. -/
lemma concept_state_snd (concept : Concept) (opts : Opts) (ds : List Designation)
    (hds : concept.designation = some ds) :
    (concept_state concept opts).2 =
      (recoveredTypes concept.system ds).getLastD opts.semantic := by
  simp only [concept_state, hds]
  exact foldl_processDesignation_snd concept.system ds _

/-- Claim C10: when two or more fully-specified-name designations of a
SNOMED-system concept each recover a semantic type, each match overwrites
the previous one, so every emitted record carries the type recovered from
the last matching designation in designation order. -/
theorem semantic_type_last_match_wins (concept : Concept) (opts : Opts)
    (ds : List Designation) (hds : concept.designation = some ds)
    (h2 : 2 ≤ (recoveredTypes concept.system ds).length) :
    ∀ r ∈ process_concept concept opts,
      r.semantic_types = [(recoveredTypes concept.system ds).getLastD opts.semantic] := by
  intro r hr
  rw [process_concept_semantic_types concept opts r hr,
    concept_state_snd concept opts ds hds]

/-- Witness for `semantic_type_last_match_wins`: with fully specified names
`"Alpha (disorder)"` then `"Beta (finding)"`, every record carries
`"finding"`, the type of the last match, not `"disorder"`. -/
theorem semantic_type_last_match_wins_witness :
    2 ≤ (recoveredTypes c4Concept.system
        [⟨snomed_sct, fsn_use_code, "Alpha (disorder)"⟩,
         ⟨snomed_sct, fsn_use_code, "Beta (finding)"⟩]).length ∧
      (recoveredTypes c4Concept.system
        [⟨snomed_sct, fsn_use_code, "Alpha (disorder)"⟩,
         ⟨snomed_sct, fsn_use_code, "Beta (finding)"⟩]).getLastD offOpts.semantic
        = "finding" ∧
      ∀ r ∈ process_concept c4Concept offOpts,
        r.semantic_types =
          [(recoveredTypes c4Concept.system
            [⟨snomed_sct, fsn_use_code, "Alpha (disorder)"⟩,
             ⟨snomed_sct, fsn_use_code, "Beta (finding)"⟩]).getLastD offOpts.semantic] :=
  ⟨by decide, by decide,
    semantic_type_last_match_wins c4Concept offOpts
      [⟨snomed_sct, fsn_use_code, "Alpha (disorder)"⟩,
       ⟨snomed_sct, fsn_use_code, "Beta (finding)"⟩] rfl (by decide)⟩

/-! ### The vocabulary scan recovers exactly the suffix type (claim C4) -/

/-- No vocabulary entry contains an opening parenthesis. -/
lemma paren_free_vocab : ∀ t ∈ SNOMED_SEMANTIC_TYPES, '(' ∉ t.data := by decide

/-- `endswith` agrees with list-suffix on the underlying characters. -/
lemma endswith_iff {s suffix : String} :
    endswith s suffix = true ↔ suffix.data <:+ s.data := by
  simp [endswith, List.isSuffixOf_iff_suffix]

/-- Characters of the scan pattern `"(" ++ t ++ ")"`. -/
lemma paren_data (t : String) : ("(" ++ t ++ ")").data = '(' :: (t.data ++ [')']) := by
  simp [String.data_append]

/-- Characters of the spec pattern `" (" ++ t ++ ")"`. -/
lemma space_paren_data (t : String) :
    (" (" ++ t ++ ")").data = ' ' :: ('(' :: (t.data ++ [')'])) := by
  simp [String.data_append]

/-- If one parenthesized pattern is a suffix of another and the outer label
is parenthesis-free, the labels agree. -/
lemma paren_suffix_of_suffix {t1 t2 : List Char}
    (h : ('(' :: (t1 ++ [')'])) <:+ ('(' :: (t2 ++ [')']))) (p2 : '(' ∉ t2) :
    t1 = t2 := by
  obtain ⟨u, hu⟩ := h
  cases u with
  | nil => simpa using hu
  | cons c u' =>
    rw [List.cons_append] at hu
    have hu2 : u' ++ ('(' :: (t1 ++ [')'])) = t2 ++ [')'] := (List.cons.injEq _ _ _ _).mp hu |>.2
    have hparen : '(' ∈ t2 ++ [')'] := by
      rw [← hu2]
      exact List.mem_append_right u' (List.mem_cons_self _ _)
    rcases List.mem_append.mp hparen with hp | hp
    · exact absurd hp p2
    · simp at hp

/-- Two parenthesized suffixes of the same value with parenthesis-free
labels have the same label. -/
lemma paren_suffix_unique {v t1 t2 : List Char}
    (h1 : ('(' :: (t1 ++ [')'])) <:+ v) (h2 : ('(' :: (t2 ++ [')'])) <:+ v)
    (p1 : '(' ∉ t1) (p2 : '(' ∉ t2) : t1 = t2 := by
  rcases List.suffix_or_suffix_of_suffix h1 h2 with h | h
  · exact paren_suffix_of_suffix h p2
  · exact (paren_suffix_of_suffix h p1).symm

/-- When a value ends with `" (TYPE)"` for a vocabulary entry `TYPE`, the
first-match scan of lines 137-141 recovers exactly `TYPE`: no other
vocabulary entry can match, because entries contain no parenthesis. -/
lemma findType_eq_of_endswith {value TYPE : String}
    (hT : TYPE ∈ SNOMED_SEMANTIC_TYPES)
    (h : endswith value (" (" ++ TYPE ++ ")") = true) :
    findType value = some TYPE := by
  have hsufT : ('(' :: (TYPE.data ++ [')'])) <:+ value.data := by
    have h' := endswith_iff.mp h
    rw [space_paren_data] at h'
    exact (List.suffix_cons ' ' _).trans h'
  have hpredT : endswith value ("(" ++ TYPE ++ ")") = true := by
    rw [endswith_iff, paren_data]
    exact hsufT
  cases hf : findType value with
  | none =>
    rw [findType, List.find?_eq_none] at hf
    exact absurd hpredT (by simpa using hf TYPE hT)
  | some T =>
    rw [findType] at hf
    have hpT : endswith value ("(" ++ T ++ ")") = true := by
      have hb := List.find?_some hf
      simpa using hb
    have hmT : T ∈ SNOMED_SEMANTIC_TYPES := List.mem_of_find?_eq_some hf
    have hsufT2 : ('(' :: (T.data ++ [')'])) <:+ value.data := by
      rw [endswith_iff, paren_data] at hpT
      exact hpT
    have hdata : T.data = TYPE.data :=
      paren_suffix_unique hsufT2 hsufT (paren_free_vocab T hmT) (paren_free_vocab TYPE hT)
    have : T = TYPE := by
      cases T
      cases TYPE
      exact congrArg String.mk hdata
    rw [this]

/-! ### Synonym-set membership through the designation fold -/

/-- The added element belongs to the set after insertion. -/
lemma mem_insertSyn_self (l : List String) (s : String) : s ∈ insertSyn l s := by
  unfold insertSyn
  split
  · assumption
  · simp

/-- Insertion preserves the elements already present. -/
lemma mem_insertSyn_of_mem {l : List String} {x : String} (s : String) (h : x ∈ l) :
    x ∈ insertSyn l s := by
  unfold insertSyn
  split
  · exact h
  · simp [h]

/-- One designation step never removes a synonym. -/
lemma processDesignation_fst_mono {system : String} {st : List String × String}
    {d : Designation} {x : String} (h : x ∈ st.1) :
    x ∈ (processDesignation system st d).1 := by
  unfold processDesignation
  repeat' split
  all_goals first
    | exact h
    | exact mem_insertSyn_of_mem _ h

/-- The designation fold never removes a synonym. -/
lemma foldl_processDesignation_fst_mono (system : String) (ds : List Designation) :
    ∀ (st : List String × String) (x : String), x ∈ st.1 →
      x ∈ (ds.foldl (processDesignation system) st).1 := by
  induction ds with
  | nil => intro st x h; exact h
  | cons d ds ih =>
    intro st x h
    rw [List.foldl_cons]
    exact ih _ x (processDesignation_fst_mono h)

/-- A matching fully specified name adds its suffix-stripped trimmed value
to the synonym set and sets the semantic type. -/
lemma processDesignation_fsn_match {system : String} (st : List String × String)
    {d : Designation} {type : String}
    (h1 : d.use_system = snomed_sct) (h2 : d.use_code = fsn_use_code)
    (h3 : system = snomed_sct) (h4 : findType d.value = some type) :
    processDesignation system st d =
      (insertSyn st.1 (pyStrip (pyDropRight d.value (type.length + 2))), type) := by
  have hfs : fsn_use_code ≠ synonym_use_code := by decide
  simp [processDesignation, h1, h2, h3, h4, hfs]

/-- The suffix-stripped trimmed value of every matching fully specified
name survives to the final synonym set. -/
lemma stripped_fsn_in_synonyms (system : String) (ds : List Designation)
    (st : List String × String) (d : Designation) (type : String)
    (hd : d ∈ ds) (h1 : d.use_system = snomed_sct) (h2 : d.use_code = fsn_use_code)
    (h3 : system = snomed_sct) (h4 : findType d.value = some type) :
    pyStrip (pyDropRight d.value (type.length + 2)) ∈
      (ds.foldl (processDesignation system) st).1 := by
  obtain ⟨l1, l2, rfl⟩ := List.append_of_mem hd
  rw [List.foldl_append, List.foldl_cons]
  apply foldl_processDesignation_fst_mono
  rw [processDesignation_fsn_match _ h1 h2 h3 h4]
  exact mem_insertSyn_self _ _

/-! ### Claim C4 -/

/-- Counterexample to claim C4 as stated: the concept has a fully specified
name `"Alpha (disorder)"` ending in the recognized suffix `" (disorder)"`,
yet not every record carries semantic type `"disorder"` — a later matching
fully specified name (`"Beta (finding)"`) overwrites it. -/
theorem fsn_type_recovery_counterexample :
    c4Concept.system = snomed_sct ∧
      c4Concept.designation =
        some [⟨snomed_sct, fsn_use_code, "Alpha (disorder)"⟩,
              ⟨snomed_sct, fsn_use_code, "Beta (finding)"⟩] ∧
      "disorder" ∈ SNOMED_SEMANTIC_TYPES ∧
      endswith "Alpha (disorder)" (" (" ++ "disorder" ++ ")") = true ∧
      ¬(∀ r ∈ process_concept c4Concept offOpts, r.semantic_types = ["disorder"]) := by
  decide

/-- Claim C4, amended: for a SNOMED-system concept with a SNOMED fully
specified name whose value ends in a recognized `" (TYPE)"` suffix, the
scan recovers exactly `TYPE` for that designation and its suffix-stripped,
trimmed value appears among the emitted terms; every record of the concept
(including synonyms seeded earlier in designation order) carries `TYPE`
provided that designation is the last one to recover a type — otherwise the
later match wins. -/
theorem fsn_type_recovery (concept : Concept) (opts : Opts) (ds : List Designation)
    (d : Designation) (TYPE : String)
    (hlc : opts.lowercase = false) (hnu : opts.normalize_unicode = false)
    (hsys : concept.system = snomed_sct) (hds : concept.designation = some ds)
    (hd : d ∈ ds) (hdu : d.use_system = snomed_sct) (hdc : d.use_code = fsn_use_code)
    (hT : TYPE ∈ SNOMED_SEMANTIC_TYPES)
    (hends : endswith d.value (" (" ++ TYPE ++ ")") = true)
    (hlast : (recoveredTypes concept.system ds).getLastD opts.semantic = TYPE) :
    (∀ r ∈ process_concept concept opts, r.semantic_types = [TYPE]) ∧
      pyStrip (pyDropRight d.value (TYPE.length + 2)) ∈
        (process_concept concept opts).map (fun r => r.term) := by
  have hfind : findType d.value = some TYPE := findType_eq_of_endswith hT hends
  constructor
  · intro r hr
    rw [process_concept_semantic_types concept opts r hr,
      concept_state_snd concept opts ds hds, hlast]
  · have hmem : pyStrip (pyDropRight d.value (TYPE.length + 2)) ∈
        (concept_state concept opts).1 := by
      simp only [concept_state, hds]
      exact stripped_fsn_in_synonyms concept.system ds _ d TYPE hd hdu hdc hsys hfind
    apply List.mem_map.mpr
    refine ⟨emitRecord opts concept.code (pyStrip concept.display)
      (concept_state concept opts).2 (pyStrip (pyDropRight d.value (TYPE.length + 2))),
      ?_, ?_⟩
    · simp only [process_concept]
      exact List.mem_map_of_mem _ hmem
    · simp [emitRecord, normalize, hlc, hnu]

/-- Witness for `fsn_type_recovery` on the concept `A1` of spec section 8:
type `"disorder"` is recovered and `"Myocardial infarction"` is emitted. -/
theorem fsn_type_recovery_witness :
    (∀ r ∈ process_concept a1Concept offOpts, r.semantic_types = ["disorder"]) ∧
      pyStrip (pyDropRight "Myocardial infarction (disorder)" ("disorder".length + 2)) ∈
        (process_concept a1Concept offOpts).map (fun r => r.term) :=
  fsn_type_recovery a1Concept offOpts
    [⟨snomed_sct, synonym_use_code, "Cardiac arrest "⟩,
     ⟨snomed_sct, fsn_use_code, "Myocardial infarction (disorder)"⟩]
    ⟨snomed_sct, fsn_use_code, "Myocardial infarction (disorder)"⟩ "disorder"
    rfl rfl rfl rfl (by decide) rfl rfl (by decide) (by decide) (by decide)

/-! ### Concept Paginator (claim C5) -/

/-- Unfolding of one loop round when the offset is still below the total. -/
lemma fhirPages_succ (server : Nat → Expansion) (nf fuel offset : Nat)
    (h : offset < nf) :
    fhirPages server nf (fuel + 1) offset =
      (offset :: (fhirPages server nf fuel (offset + fhir_count)).1,
       (server offset).contains ++ (fhirPages server nf fuel (offset + fhir_count)).2) := by
  simp [fhirPages, h]

/-- The loop stops as soon as the offset reaches the total. -/
lemma fhirPages_stop (server : Nat → Expansion) (nf fuel offset : Nat)
    (h : ¬ offset < nf) :
    fhirPages server nf (fuel + 1) offset = ([], []) := by
  simp [fhirPages, h]

/-- Request offsets issued by the loop: exactly the multiples of the page
size, counted from the starting offset, below the total (given enough
fuel). -/
lemma mem_fhirPages_fst (server : Nat → Expansion) (number_found : Nat) :
    ∀ (fuel offset m : Nat), number_found ≤ offset + fuel * fhir_count →
      (m ∈ (fhirPages server number_found fuel offset).1 ↔
        (offset ≤ m ∧ m < number_found ∧ fhir_count ∣ (m - offset))) := by
  intro fuel
  induction fuel with
  | zero =>
    intro offset m hfuel
    simp only [fhirPages, List.not_mem_nil, false_iff, fhir_count] at *
    omega
  | succ fuel ih =>
    intro offset m hfuel
    by_cases h : offset < number_found
    · rw [fhirPages_succ server number_found fuel offset h]
      simp only [List.mem_cons]
      rw [ih (offset + fhir_count) m (by simp only [fhir_count] at *; omega)]
      simp only [fhir_count] at *
      constructor
      · rintro (rfl | ⟨h1, h2, h3⟩)
        · exact ⟨Nat.le_refl m, h, by simp⟩
        · exact ⟨by omega, h2, by omega⟩
      · rintro ⟨h1, h2, h3⟩
        rcases Nat.eq_or_lt_of_le h1 with rfl | hlt
        · exact Or.inl rfl
        · exact Or.inr ⟨by omega, h2, by omega⟩
    · rw [fhirPages_stop server number_found fuel offset h]
      simp only [List.not_mem_nil, false_iff, fhir_count]
      omega

/-- Request offsets of the whole retrieval: the unconditional first request
at offset 0, then every positive multiple of the page size below the
total reported by the first response. -/
lemma mem_extract_requests (server : Nat → Expansion) (opts : Opts) (m : Nat) :
    m ∈ (extract_from_fhir server opts).1 ↔
      (m = 0 ∨ (fhir_count ∣ m ∧ 0 < m ∧ m < (server 0).total)) := by
  simp only [extract_from_fhir, List.mem_cons]
  rw [mem_fhirPages_fst server (server 0).total (server 0).total fhir_count m
    (by simp only [fhir_count]; omega)]
  simp only [fhir_count]
  omega

/-- Claim C5: for a server reporting `expansion.total = 250` with page size
100, exactly the three requests at offsets 0, 100, 200 are issued, and when
each page returns its full window the retrieval yields exactly 250 raw
concepts; in general, for any server, the request at offset `k + count` is
issued iff `k + count < total` (given the request at `k` was issued). -/
theorem paginator_offsets (server : Nat → Expansion) (opts : Opts)
    (htot : (server 0).total = 250)
    (hlen : ∀ k ∈ [0, 100, 200], ((server k).contains).length = min 100 (250 - k)) :
    (extract_from_fhir server opts).1 = [0, 100, 200] ∧
      (extract_from_fhir server opts).2.1.length = 250 ∧
      ∀ (server' : Nat → Expansion) (opts' : Opts) (k : Nat),
        k ∈ (extract_from_fhir server' opts').1 →
          (k + fhir_count ∈ (extract_from_fhir server' opts').1 ↔
            k + fhir_count < (server' 0).total) := by
  have h1 : fhirPages server 250 248 300 = ([], []) := by
    have hs := fhirPages_stop server 250 247 300 (by omega)
    simpa using hs
  have h2 : fhirPages server 250 249 200 =
      (200 :: (fhirPages server 250 248 300).1,
       (server 200).contains ++ (fhirPages server 250 248 300).2) := by
    have hs := fhirPages_succ server 250 248 200 (by omega)
    simpa [fhir_count] using hs
  have h3 : fhirPages server 250 250 100 =
      (100 :: (fhirPages server 250 249 200).1,
       (server 100).contains ++ (fhirPages server 250 249 200).2) := by
    have hs := fhirPages_succ server 250 249 100 (by omega)
    simpa [fhir_count] using hs
  have hl0 := hlen 0 (by simp)
  have hl100 := hlen 100 (by simp)
  have hl200 := hlen 200 (by simp)
  refine ⟨?_, ?_, ?_⟩
  · simp only [extract_from_fhir, htot, fhir_count, h3, h2, h1]
  · simp only [extract_from_fhir, htot, fhir_count, h3, h2, h1,
      List.length_append, hl0, hl100, hl200]
    simp
  · intro server' opts' k hk
    rw [mem_extract_requests] at hk
    rw [mem_extract_requests]
    simp only [fhir_count] at *
    omega

/-- Witness for `paginator_offsets` on a concrete full-window server. -/
theorem paginator_offsets_witness :
    (extract_from_fhir c5server offOpts).1 = [0, 100, 200] ∧
      (extract_from_fhir c5server offOpts).2.1.length = 250 :=
  ⟨(paginator_offsets c5server offOpts rfl
      (by intro k hk; simp [c5server])).1,
   (paginator_offsets c5server offOpts rfl
      (by intro k hk; simp [c5server])).2.1⟩

/-! ### Text Normalizer idempotence (claim C8) -/

/-- `Char.ofNat` round-trip on valid code points. -/
lemma char_toNat_ofNat {n : Nat} (h : Nat.isValidChar n) : (Char.ofNat n).toNat = n := by
  simp [Char.ofNat, Char.ofNatAux, Char.toNat, h, UInt32.toNat]

/-- Lowercasing a character twice equals lowercasing it once. -/
lemma lowerChar_idem (c : Char) : lowerChar (lowerChar c) = lowerChar c := by
  by_cases h : 65 ≤ c.toNat ∧ c.toNat ≤ 90
  · have hv : Nat.isValidChar (c.toNat + 32) := Or.inl (by omega)
    have h1 : lowerChar c = Char.ofNat (c.toNat + 32) := by
      simp only [lowerChar, if_pos h]
    rw [h1]
    simp only [lowerChar, char_toNat_ofNat hv]
    rw [if_neg (by omega)]
  · simp only [lowerChar, if_neg h]

/-- The result of `lowerChar` is never an uppercase ASCII letter. -/
lemma lowerChar_not_upper (c : Char) :
    ¬(65 ≤ (lowerChar c).toNat ∧ (lowerChar c).toNat ≤ 90) := by
  by_cases h : 65 ≤ c.toNat ∧ c.toNat ≤ 90
  · have hv : Nat.isValidChar (c.toNat + 32) := Or.inl (by omega)
    simp only [lowerChar, if_pos h, char_toNat_ofNat hv]
    omega
  · simp only [lowerChar, if_neg h]
    exact h

/-- ASCII characters transliterate to themselves. -/
lemma unidecodeChar_ascii {c : Char} (h : c.toNat < 128) : unidecodeChar c = [c] := by
  simp [unidecodeChar, h]

/-- Every character output by a table entry is ASCII and not an uppercase
letter. -/
lemma unidecode_table_ascii :
    ∀ p ∈ unidecode_table, ∀ c' ∈ p.2,
      c'.toNat < 128 ∧ ¬(65 ≤ c'.toNat ∧ c'.toNat ≤ 90) := by
  decide

/-- Outputs of the character transliteration are ASCII. -/
lemma unidecodeChar_mem_ascii {c c' : Char} (h : c' ∈ unidecodeChar c) :
    c'.toNat < 128 := by
  unfold unidecodeChar at h
  split at h
  · rename_i hc
    rw [List.mem_singleton] at h
    subst h
    exact hc
  · cases hf : unidecode_table.find? (fun p => p.1 = c) with
    | none =>
      rw [hf] at h
      simp at h
    | some p =>
      rw [hf] at h
      exact (unidecode_table_ascii p (List.mem_of_find?_eq_some hf) c' h).1

/-- Transliterating a non-uppercase character never produces an uppercase
letter. -/
lemma unidecodeChar_mem_not_upper {c c' : Char} (h : c' ∈ unidecodeChar c)
    (hc : ¬(65 ≤ c.toNat ∧ c.toNat ≤ 90)) :
    ¬(65 ≤ c'.toNat ∧ c'.toNat ≤ 90) := by
  unfold unidecodeChar at h
  split at h
  · rw [List.mem_singleton] at h
    subst h
    exact hc
  · cases hf : unidecode_table.find? (fun p => p.1 = c) with
    | none =>
      rw [hf] at h
      simp at h
    | some p =>
      rw [hf] at h
      exact (unidecode_table_ascii p (List.mem_of_find?_eq_some hf) c' h).2

/-- Flattening singleton transliterations reproduces the character list. -/
lemma flatten_map_eq_self {l : List Char} (h : ∀ c ∈ l, unidecodeChar c = [c]) :
    (l.map unidecodeChar).flatten = l := by
  induction l with
  | nil => rfl
  | cons c cs ih =>
    rw [List.map_cons, List.flatten_cons, h c (List.mem_cons_self c cs),
      ih (fun c' hc' => h c' (List.mem_cons_of_mem c hc'))]
    rfl

/-- Strings whose characters are fixed by `lowerChar` are fixed by
`pyLower`. -/
lemma pyLower_fix {s : String} (h : ∀ c ∈ s.data, lowerChar c = c) : pyLower s = s := by
  cases s with
  | mk data =>
    have h2 : data.map lowerChar = data.map id := List.map_congr_left (fun c hc => h c hc)
    simp only [pyLower]
    rw [h2, List.map_id]

/-- Strings whose characters transliterate to themselves are fixed by
`unidecode`. -/
lemma unidecode_fix {s : String} (h : ∀ c ∈ s.data, unidecodeChar c = [c]) :
    unidecode s = s := by
  cases s with
  | mk data =>
    simp only [unidecode]
    rw [flatten_map_eq_self h]

/-- Every character of a transliterated string comes from transliterating
some character of the original. -/
lemma mem_unidecode_data {s : String} {c' : Char} (h : c' ∈ (unidecode s).data) :
    ∃ c ∈ s.data, c' ∈ unidecodeChar c := by
  have h' : c' ∈ (s.data.map unidecodeChar).flatten := h
  rw [List.mem_flatten] at h'
  obtain ⟨l, hl, hc⟩ := h'
  rw [List.mem_map] at hl
  obtain ⟨c, hcs, rfl⟩ := hl
  exact ⟨c, hcs, hc⟩

/-- Every character of a lowercased string is the lowercasing of a
character of the original. -/
lemma mem_pyLower_data {s : String} {c' : Char} (h : c' ∈ (pyLower s).data) :
    ∃ c ∈ s.data, c' = lowerChar c := by
  have h' : c' ∈ s.data.map lowerChar := h
  rw [List.mem_map] at h'
  obtain ⟨c, hc, he⟩ := h'
  exact ⟨c, hc, he.symm⟩

/-- Lowercasing a string is idempotent. -/
lemma pyLower_idem (s : String) : pyLower (pyLower s) = pyLower s := by
  apply pyLower_fix
  intro c hc
  obtain ⟨c0, _, rfl⟩ := mem_pyLower_data hc
  exact lowerChar_idem c0

/-- Transliterating a string is idempotent: outputs are ASCII and ASCII is
fixed. -/
lemma unidecode_idem (s : String) : unidecode (unidecode s) = unidecode s := by
  apply unidecode_fix
  intro c hc
  obtain ⟨c0, _, hm⟩ := mem_unidecode_data hc
  exact unidecodeChar_ascii (unidecodeChar_mem_ascii hm)

/-- Claim C8: the normalization of lines 144-149 (lowercase first, then
transliterate) is idempotent for every string and every flag pair. -/
theorem normalize_idempotent (s : String) (L U : Bool) :
    normalize (normalize s L U) L U = normalize s L U := by
  cases L with
  | false =>
    cases U with
    | false => rfl
    | true => exact unidecode_idem s
  | true =>
    cases U with
    | false => exact pyLower_idem s
    | true =>
      show unidecode (pyLower (unidecode (pyLower s))) = unidecode (pyLower s)
      have hfix : pyLower (unidecode (pyLower s)) = unidecode (pyLower s) := by
        apply pyLower_fix
        intro c hc
        obtain ⟨c0, hc0, hm⟩ := mem_unidecode_data hc
        obtain ⟨c1, _, rfl⟩ := mem_pyLower_data hc0
        have hnotup : ¬(65 ≤ c.toNat ∧ c.toNat ≤ 90) :=
          unidecodeChar_mem_not_upper hm (lowerChar_not_upper c1)
        simp only [lowerChar, if_neg hnotup]
      rw [hfix]
      exact unidecode_idem (pyLower s)

end QuickUMLS
